import Mathlib

/-!
Verification development for the Foliage statefun cache
(`statefun/cache/cache.go`): a hierarchical, write-behind, LRU-bounded
cache between stateful functions and a NATS key/value store.

The Go code is shallowly embedded as pure Lean functions:

* `CacheStoreValue` is the tree of cache nodes; the Go struct's scalar
  fields live in `CSVData`, the `store` map of children is an
  association list from string tokens to subtrees, and the
  `notifyUpdates` subscriber map is kept as the list of its callback
  ids (channel payloads are irrelevant to the properties studied here).
* Dotted string keys (`"a.b.c"`) are modelled as their token lists
  (`["a", "b", "c"]`); `strings.Split` never produces an empty list and
  produces no empty token for well-formed keys, which surfaces as
  side conditions on token lists.  The `kvStorePrefix` namespacing of
  `toStoreKey`/`fromStoreKey` is a bijective renaming of KV keys and is
  dropped, so KV keys coincide with cache keys.
* The NATS KV bucket is an association list of keys to byte strings;
  bytes are `Nat`s below 256.  `kv.Put` is modelled as always
  succeeding; mutex acquisition and goroutine interleavings collapse to
  the sequential order in which the Go code performs its state changes,
  except in `WatchState`/`NodeStep`, which model the interleaving of
  the lazy writer and the KV watcher on a single node explicitly.
* Go slice expressions such as `valueBytes[:8]`, `valueBytes[8]`,
  `valueBytes[9:]` become `List.take`/`List.getD`/`List.drop`.  The one
  place where the Go code slices before checking the length
  (`CacheStore.GetValue`, line 526) is modelled with an explicit
  `GoPanic` error, taking the slice capacity to equal its length, as
  it does for freshly decoded NATS message payloads.

Line numbers in doc comments refer to `statefun/cache/cache.go`.
-/

namespace FoliageCache

/-- Byte strings, as lists of byte values. -/
abbrev Bytes := List Nat

/-- Cache keys, as lists of dot-separated tokens. -/
abbrev CKey := List String

/-- The scalar fields of `CacheStoreValue` (cache.go lines 27-40).
`notifyUpdates` keeps only the subscriber callback ids; `parent` and
`keyInParent` are implicit in the tree structure below. -/
structure CSVData where
  value : Option Bytes
  valueExists : Bool
  purgeState : Nat
  storeConsistencyWithKVLossTime : Int
  valueUpdateTime : Int
  syncNeeded : Bool
  syncedWithKV : Bool
  notifyUpdates : List String
deriving Repr, DecidableEq

/-- A cache tree node: scalar fields plus the `store` map of children,
keyed by path token (cache.go line 33). -/
inductive CacheStoreValue where
  | node : CSVData → List (String × CacheStoreValue) → CacheStoreValue
deriving Repr

/-- Scalar fields of a node. -/
def CacheStoreValue.data : CacheStoreValue → CSVData
  | .node d _ => d

/-- Children map of a node. -/
def CacheStoreValue.children : CacheStoreValue → List (String × CacheStoreValue)
  | .node _ cs => cs

/-- Lookup in a children map (`LoadChild`, cache.go lines 95-104). -/
def loadChild : List (String × CacheStoreValue) → String → Option CacheStoreValue
  | [], _ => none
  | (k, c) :: rest, q => if k = q then some c else loadChild rest q

/-- Store into a children map (`csv.store[key] = child` in `StoreChild`,
cache.go line 116): replace the binding if present, append otherwise. -/
def storeChild : List (String × CacheStoreValue) → String → CacheStoreValue →
    List (String × CacheStoreValue)
  | [], k, t => [(k, t)]
  | (k0, c0) :: rest, k, t =>
    if k0 = k then (k0, t) :: rest else (k0, c0) :: storeChild rest k t

/-- `CacheStoreValue.Put` on the scalar fields (cache.go lines 126-148);
the caller has already replaced a negative `customPutTime` by the
current time.  Subscriber notification carries no node state. -/
def putData (d : CSVData) (value : Bytes) (updateInKV : Bool) (customPutTime : Int) : CSVData :=
  { d with
    value := some value
    valueExists := true
    purgeState := 0
    valueUpdateTime := customPutTime
    syncNeeded := updateInKV
    syncedWithKV := !updateInKV }

/-- `CacheStoreValue.Delete` on the scalar fields (cache.go lines 201-228). -/
def deleteData (d : CSVData) (updateInKV : Bool) (customDeleteTime : Int) : CSVData :=
  { d with
    value := none
    valueExists := false
    valueUpdateTime := customDeleteTime
    purgeState := if updateInKV then 1 else 2
    syncNeeded := updateInKV
    syncedWithKV := !updateInKV }

/-- `TryPurgeReady` (cache.go lines 177-187): 0 becomes 1. -/
def tryPurgeReady (d : CSVData) : CSVData :=
  if d.purgeState = 0 then { d with purgeState := 1 } else d

/-- `TryPurgeConfirm` (cache.go lines 189-199): 1 becomes 2 when the
node is clean and confirmed. -/
def tryPurgeConfirm (d : CSVData) : CSVData :=
  if d.syncNeeded = false ∧ d.syncedWithKV = true ∧ d.purgeState = 1 then
    { d with purgeState := 2 }
  else d

/-- One level of `ConsistencyLoss` (cache.go lines 82-89): raise the
loss timestamp to `lossTime` when that is strictly larger. -/
def consistencyLoss (cur lossTime : Int) : Int :=
  if cur < lossTime then lossTime else cur

/-- `CacheStoreValue.collectGarbage` (cache.go lines 150-175) on one
node: first the self-purge block of lines 155-158, then the removal
decision of line 165.  Returns the updated node and whether the parent
deletes it from its `store` map.  The recursive `go
csv.parent.collectGarbage()` of line 173 runs on a separate goroutine
and is not part of this step. -/
def collectGarbage : CacheStoreValue → CacheStoreValue × Bool
  | .node d cs =>
    let d1 := if d.valueExists = false ∧ cs.isEmpty = true ∧ d.syncedWithKV = true then
      tryPurgeConfirm (tryPurgeReady d) else d
    let canBeDeletedFromParent :=
      d1.purgeState = 2 ∧ cs.isEmpty = true ∧ d1.syncNeeded = false ∧
        d1.syncedWithKV = true ∧ d1.notifyUpdates.isEmpty = true
    (.node d1 cs, decide canBeDeletedFromParent)

/-- The node freshly created by `SetValue` when the key's leaf was
absent (cache.go line 652). -/
def newCSVData (value : Bytes) (updateInKV : Bool) (customSetTime : Int) : CSVData :=
  { value := some value
    valueExists := true
    purgeState := 0
    storeConsistencyWithKVLossTime := 0
    valueUpdateTime := customSetTime
    syncNeeded := updateInKV
    syncedWithKV := !updateInKV
    notifyUpdates := [] }

/-- The routing node fabricated by
`getLastKeyTokenAndItsParentCacheStoreValue` with creation
(cache.go line 859). -/
def routingCSVData (now : Int) : CSVData :=
  { value := none
    valueExists := false
    purgeState := 0
    storeConsistencyWithKVLossTime := 0
    valueUpdateTime := now
    syncNeeded := false
    syncedWithKV := true
    notifyUpdates := [] }

/-- The root node installed by `NewCacheStore` (cache.go line 275). -/
def rootCSVData : CSVData :=
  { value := none
    valueExists := false
    purgeState := 0
    storeConsistencyWithKVLossTime := 0
    valueUpdateTime := -1
    syncNeeded := false
    syncedWithKV := true
    notifyUpdates := [] }

/-- The last token of a split key (`tokens[len(tokens)-1]`); the empty
string both for an empty token list (which `strings.Split` never
produces) and as the value the Go code compares against with
`len(keyLastToken) > 0`. -/
def lastTok : List String → String
  | [] => ""
  | [x] => x
  | _ :: y :: rest => lastTok (y :: rest)

/-- All tokens but the last (`tokens[0 .. len(tokens)-2]`), the path of
the parent node in the navigation helpers. -/
def dropLastTok : List String → List String
  | [] => []
  | [_] => []
  | x :: y :: rest => x :: dropLastTok (y :: rest)

/-- Walk the full token path (`getLastKeyCacheStoreValue`, cache.go
lines 888-901). -/
def lookupNode : CacheStoreValue → List String → Option CacheStoreValue
  | t, [] => some t
  | .node _ cs, tok :: rest =>
    match loadChild cs tok with
    | some c => lookupNode c rest
    | none => none

/-- The deepest node reachable without creating, walking only the
non-final tokens (`getLastExistingCacheStoreValueByKey`, cache.go
lines 871-886). -/
def lastExistingNode : CacheStoreValue → List String → CacheStoreValue
  | t, [] => t
  | t, [_] => t
  | .node d cs, tok :: tok2 :: rest =>
    match loadChild cs tok with
    | some c => lastExistingNode c (tok2 :: rest)
    | none => .node d cs

/-- Locate the node of a key the way the query surface does
(`getLastKeyTokenAndItsParentCacheStoreValue` without creation followed
by `LoadChild` of the last token, guarded by `len(keyLastToken) > 0 &&
parentCacheStoreValue != nil`; cache.go lines 490-491, 506-507,
850-869). -/
def findNodeGo (root : CacheStoreValue) (toks : List String) : Option CacheStoreValue :=
  if lastTok toks = "" then none
  else
    match lookupNode root (dropLastTok toks) with
    | some p => loadChild p.children (lastTok toks)
    | none => none

/-- `CacheStore.GetValueUpdateTime` (cache.go lines 487-498). -/
def GetValueUpdateTime (root : CacheStoreValue) (toks : List String) : Int :=
  match findNodeGo root toks with
  | some n => n.data.valueUpdateTime
  | none => -1

/-- Update the scalar fields of the node at a token path, when the
whole path exists; used to model in-place mutation of a node reached
through `getLastKeyCacheStoreValue`. -/
def updateNodeAt (f : CSVData → CSVData) : CacheStoreValue → List String → CacheStoreValue
  | .node d cs, [] => .node (f d) cs
  | .node d cs, tok :: rest =>
    match loadChild cs tok with
    | some c => .node d (storeChild cs tok (updateNodeAt f c rest))
    | none => .node d cs

/-- Replace the whole subtree at a token path, when the path exists. -/
def updateSubtreeAt (f : CacheStoreValue → CacheStoreValue) :
    CacheStoreValue → List String → CacheStoreValue
  | t, [] => f t
  | .node d cs, tok :: rest =>
    match loadChild cs tok with
    | some c => .node d (storeChild cs tok (updateSubtreeAt f c rest))
    | none => .node d cs

/-- The non-transactional branch of `CacheStore.SetValue`
(cache.go lines 642-657): walk to the parent creating routing nodes,
then `Put` into the existing child or attach a fresh node.  `now`
stands for `system.GetCurrentTimeNs()` both for routing-node stamps
and, through `SetValue` below, for negative custom times.  A last
token of length 0 makes the guard of line 644 fail and the call a
no-op. -/
def setValueGo (now : Int) (v : Bytes) (u : Bool) (t : Int) :
    CacheStoreValue → List String → CacheStoreValue
  | root, [] => root
  | .node d cs, [last] =>
    if last = "" then .node d cs
    else
      match loadChild cs last with
      | some (.node cd ccs) => .node d (storeChild cs last (.node (putData cd v u t) ccs))
      | none => .node d (storeChild cs last (.node (newCSVData v u t) []))
  | .node d cs, tok :: tok2 :: rest =>
    let sub := match loadChild cs tok with
      | some c => c
      | none => .node (routingCSVData now) []
    .node d (storeChild cs tok (setValueGo now v u t sub (tok2 :: rest)))

/-- `CacheStore.SetValue` with an empty transaction id
(cache.go lines 638-657), resolving a negative `customSetTime` to the
current time (lines 639-641). -/
def SetValue (root : CacheStoreValue) (toks : List String) (v : Bytes) (u : Bool)
    (customSetTime now : Int) : CacheStoreValue :=
  setValueGo now v u (if customSetTime < 0 then now else customSetTime) root toks

/-- The non-transactional branch of `CacheStore.DeleteValue`
(cache.go lines 678-685): `Delete` on the node when it exists and its
value exists; never creates routing nodes. -/
def DeleteValue (root : CacheStoreValue) (toks : List String) (u : Bool)
    (customDeleteTime now : Int) : CacheStoreValue :=
  let t := if customDeleteTime < 0 then now else customDeleteTime
  match findNodeGo root toks with
  | some n =>
    if n.data.valueExists then updateNodeAt (fun d => deleteData d u t) root toks else root
  | none => root

/-- The KV bucket: an association of keys to raw byte values
(prefixing by `kvStorePrefix` dropped, see the header). -/
abbrev KV := List (CKey × Bytes)

/-- `kv.Get` (success case is `some`). -/
def kvGet : KV → CKey → Option Bytes
  | [], _ => none
  | (k, v) :: rest, q => if k = q then some v else kvGet rest q

/-- `kv.Put`, modelled as always succeeding. -/
def kvPut : KV → CKey → Bytes → KV
  | [], k, v => [(k, v)]
  | (k0, v0) :: rest, k, v =>
    if k0 = k then (k0, v) :: rest else (k0, v0) :: kvPut rest k v

/-- `kv.Delete`. -/
def kvDelete : KV → CKey → KV
  | [], _ => []
  | (k0, v0) :: rest, k =>
    if k0 = k then kvDelete rest k else (k0, v0) :: kvDelete rest k

/-- `binary.BigEndian.Uint64(valueBytes[:8])`. -/
def beUint64 (bs : Bytes) : Nat :=
  ((bs.take 8).foldl (fun a b => a * 256 + b % 256) 0)

/-- The Go cast `int64(u)` of a `uint64`. -/
def int64OfUint64 (u : Nat) : Int :=
  if u < 2 ^ 63 then (u : Int) else (u : Int) - 2 ^ 64

/-- The record time carried in the first 8 bytes of a framed KV value
(cache.go lines 296, 530). -/
def kvRecordTime (bs : Bytes) : Int := int64OfUint64 (beUint64 bs)

/-- `binary.BigEndian.PutUint64(timeBytes, uint64(t))`: the 8-byte
big-endian encoding of a time stamp (cache.go lines 394-395). -/
def putBeUint64 (t : Int) : Bytes :=
  let u := (t % (2 : Int) ^ 64).toNat
  (List.range 8).map (fun i => u / 256 ^ (7 - i) % 256)

/-- Go panics modelled explicitly. -/
inductive GoPanic where
  | sliceOutOfRange
deriving Repr, DecidableEq

/-- The errors `CacheStore.GetValue` can return. -/
inductive CacheError where
  | valueDoesNotExist
  | kvGetError
deriving Repr, DecidableEq

/-- `CacheStore.GetValue` (cache.go lines 500-543).  A cache hit
returns the cached bytes (error when `valueExists` is false, with no
KV fallback); a cache miss performs `kv.Get` and, crucially, computes
`result = valueBytes[9:]` on line 526 BEFORE the `len(valueBytes) >= 9`
check of line 528, which is a Go slice-bounds panic whenever the KV
value is shorter than 9 bytes (capacity taken to equal length).  With
at least 9 bytes, an append flag of 1 injects the payload through
`SetValue(key, result, false, kvRecordTime, "")`; any other flag
returns the sliced bytes with a nil error and no injection.  Returns
(result, error, updated tree). -/
def GetValue (now : Int) (root : CacheStoreValue) (kv : KV) (toks : List String) :
    Except GoPanic (Option Bytes × Option CacheError × CacheStoreValue) :=
  match findNodeGo root toks with
  | some n =>
    if n.data.valueExists then .ok (n.data.value, none, root)
    else .ok (none, some .valueDoesNotExist, root)
  | none =>
    match kvGet kv toks with
    | some valueBytes =>
      if valueBytes.length < 9 then .error .sliceOutOfRange
      else
        let result := valueBytes.drop 9
        let appendFlag := valueBytes.getD 8 0
        let t := kvRecordTime valueBytes
        if appendFlag = 1 then .ok (some result, none, SetValue root toks result false t now)
        else .ok (some result, none, root)
    | none => .ok (none, some .kvGetError, root)

/-- One iteration of the KV watcher `storeUpdatesHandler` on a non-nil
entry (cache.go lines 291-337).  Returns the updated tree and KV.
Framed entries (at least 9 bytes) merge by time stamp: strictly newer
set entries are applied through `SetValue` with `updateInKV=false`,
strictly newer delete markers trigger a raw `kv.Delete`, an equal time
stamp is the cache's own echo (delete the raw entry when the flag is 0,
then mark the node `syncedWithKV` and try to confirm its purge), and a
strictly older entry falls through both branches and is ignored.
Zero-byte entries mark the node synced and run both purge transitions.
Entries of 1 to 8 bytes are logged and dropped. -/
def storeUpdatesHandler (now : Int) (root : CacheStoreValue) (kv : KV)
    (key : CKey) (valueBytes : Bytes) : CacheStoreValue × KV :=
  if 9 ≤ valueBytes.length then
    let appendFlag := valueBytes.getD 8 0
    let tkv := kvRecordTime valueBytes
    let cacheRecordTime := GetValueUpdateTime root key
    if cacheRecordTime < tkv then
      if appendFlag = 1 then (SetValue root key (valueBytes.drop 9) false tkv now, kv)
      else (root, kvDelete kv key)
    else if tkv = cacheRecordTime then
      let kv1 := if appendFlag = 0 then kvDelete kv key else kv
      match lookupNode root key with
      | some _ =>
        (updateNodeAt (fun d => tryPurgeConfirm { d with syncedWithKV := true }) root key, kv1)
      | none => (root, kv1)
    else (root, kv)
  else if valueBytes.length = 0 then
    match lookupNode root key with
    | some _ =>
      (updateNodeAt (fun d => tryPurgeConfirm (tryPurgeReady { d with syncedWithKV := true }))
        root key, kv)
    | none => (root, kv)
  else (root, kv)

/-- The state change the watcher applies to a node when it recognises
the KV entry as the cache's own echo (`kvRecordTime == cacheRecordTime`,
cache.go lines 316-321): set `syncedWithKV` and try to confirm the
purge.  `syncNeeded` is not touched. -/
def watcherEchoConfirm (d : CSVData) : CSVData :=
  tryPurgeConfirm { d with syncedWithKV := true }

/-- A single cache node together with the time stamp of the KV
bucket's current entry for its key (`none` when the bucket holds no
entry yet), for exploring the interleaving of the lazy writer and the
watcher on that node. -/
structure WatchState where
  nd : CSVData
  kvTime : Option Int
deriving Repr, DecidableEq

/-- Atomic state changes of one cache node, as the Go code performs
them under the node's mutex.  `writerFlush` is the lazy writer's
`kv.Put` of a dirty node (cache.go line 417), which publishes the
node's current time stamp to the bucket but does not yet touch the
node; `writerClearSync` is the writer re-acquiring the lock and
clearing `syncNeeded` when the time stamp it captured is unchanged
(lines 419-423); `echoEqual` is the watcher consuming the bucket's
echo at the matching time stamp (lines 312-321). -/
inductive NodeStep : WatchState → WatchState → Prop where
  | putLocal (s : WatchState) (v : Bytes) (u : Bool) (t : Int) :
      NodeStep s ⟨putData s.nd v u t, s.kvTime⟩
  | deleteLocal (s : WatchState) (u : Bool) (t : Int) :
      NodeStep s ⟨deleteData s.nd u t, s.kvTime⟩
  | writerFlush (s : WatchState) :
      s.nd.syncNeeded = true → NodeStep s ⟨s.nd, some s.nd.valueUpdateTime⟩
  | writerClearSync (s : WatchState) :
      s.nd.syncNeeded = true → s.kvTime = some s.nd.valueUpdateTime →
      NodeStep s ⟨{ s.nd with syncNeeded := false }, s.kvTime⟩
  | echoEqual (s : WatchState) :
      s.kvTime = some s.nd.valueUpdateTime →
      NodeStep s ⟨watcherEchoConfirm s.nd, s.kvTime⟩

/-- Reachability of a node state from the node's creation by a local
`SetValue` (cache.go line 652), with no KV entry for its key yet. -/
inductive NodeReach : WatchState → Prop where
  | init (v : Bytes) (u : Bool) (t : Int) : NodeReach ⟨newCSVData v u t, none⟩
  | step (s s2 : WatchState) : NodeReach s → NodeStep s s2 → NodeReach s2

/-- The serialised payload the lazy writer pushes for a dirty node:
`time || 1 || value` for a present value, `time || 0` for a deleted one
(cache.go lines 394-401).  The Go type assertion
`csvChild.value.([]byte)` is modelled by `Option.getD` (it cannot fail
for nodes made dirty by `Put`). -/
def writerFinalBytes (d : CSVData) : Bytes :=
  if d.valueExists then putBeUint64 d.valueUpdateTime ++ [1] ++ d.value.getD []
  else putBeUint64 d.valueUpdateTime ++ [0]

/-- What the lazy writer does to one child while ranging over its
parent's `store` (cache.go lines 389-427): flush a dirty child to the
KV and clear `syncNeeded` (the `Put` is modelled as succeeding, and
sequentially `valueUpdateTime` is unchanged when the writer re-locks,
line 420); for a clean child that is cold
(`0 < valueUpdateTime ≤ lruTresholdTime` with `purgeState = 0`), run
the purge transitions and report `true` so the caller raises
`ConsistencyLoss` on itself and its ancestors (line 405).  Only the
child's scalar data is touched. -/
def sweepMarkData (thr : Int) (kv : KV) (ckey : CKey) (d : CSVData) : CSVData × KV × Bool :=
  if d.syncNeeded then
    ({ d with syncNeeded := false }, kvPut kv ckey (writerFinalBytes d), false)
  else
    if 0 < d.valueUpdateTime ∧ d.valueUpdateTime ≤ thr ∧ d.purgeState = 0 then
      (tryPurgeConfirm (tryPurgeReady d), kv, true)
    else (d, kv, false)

/-- `ConsistencyLoss` applied to one node's data
(cache.go lines 82-89). -/
def raiseConsistencyLoss (d : CSVData) (now : Int) : CSVData :=
  { d with
    storeConsistencyWithKVLossTime := consistencyLoss d.storeConsistencyWithKVLossTime now }

/-- Result of sweeping one subtree: the subtree after the pass, whether
`collectGarbage` asked the parent to delete it, the KV, the
`valueUpdateTime`s recorded for LRU accounting, and whether a
consistency loss below must be propagated to the ancestors. -/
structure SweepOut where
  tree : CacheStoreValue
  removeMe : Bool
  kv : KV
  lruTimes : List Int
  lossRaised : Bool

/-- The visit a node receives once its own marking is done, given the
results of sweeping its children (cache.go lines 360-439): record its
`valueUpdateTime` (line 366), raise `storeConsistencyWithKVLossTime` by
`now` when any eviction happened among its children or deeper
(`ConsistencyLoss`, lines 405 and 82-89, bubbling through every
ancestor), and run `collectGarbage` when the node had no children at
its visit (lines 436-438); the root's `removeMe` is ignored by the
caller because the root has no parent (line 168). -/
def sweepWrap (now : Int) (d : CSVData)
    (cs : List (String × CacheStoreValue))
    (r : List (String × CacheStoreValue) × KV × List Int × Bool) : SweepOut :=
  let lossRaised := r.2.2.2
  let d1 := if lossRaised then raiseConsistencyLoss d now else d
  if cs.isEmpty then
    let g := collectGarbage (.node d1 r.1)
    ⟨g.1, g.2, r.2.1, d.valueUpdateTime :: r.2.2.1, lossRaised⟩
  else
    ⟨.node d1 r.1, false, r.2.1, d.valueUpdateTime :: r.2.2.1, lossRaised⟩

mutual
/-- Sweep the subtree rooted at a node whose own marking (by its
parent's loop iteration) produced the scalar data `md`: sweep the
children, then receive the visit. -/
def sweepSub (thr now : Int) (kv : KV) (ckey : CKey) (md : CSVData) :
    CacheStoreValue → SweepOut
  | .node _ cs => sweepWrap now md cs (sweepChildren thr now kv ckey cs)

/-- The depth-first walk of `kvLazyWriter` over a children map
(cache.go lines 360-439): mark (flush or purge-mark) each child, sweep
its subtree, visit it, and drop it when its `collectGarbage` asked for
deletion from the parent's `store` (lines 168-172).  The Go loop marks
all children of a node before visiting any of them; marking and
visiting touch disjoint state (marking a child only its scalar data
and its own KV key, a visit only the child's subtree and keys below
it, and the loss raise is an idempotent max), so interleaving each
child's mark with its visit, as this recursion does, yields the same
final tree and KV. -/
def sweepChildren (thr now : Int) (kv : KV) (pkey : CKey) :
    List (String × CacheStoreValue) →
    List (String × CacheStoreValue) × KV × List Int × Bool
  | [] => ([], kv, [], false)
  | (k, c) :: rest =>
    let m := sweepMarkData thr kv (pkey ++ [k]) c.data
    let r1 := sweepSub thr now m.2.1 (pkey ++ [k]) m.1 c
    let r2 := sweepChildren thr now r1.kv pkey rest
    ((if r1.removeMe then r2.1 else (k, r1.tree) :: r2.1), r2.2.1,
      r1.lruTimes ++ r2.2.2.1, (m.2.2 || r1.lossRaised) || r2.2.2.2)
end

/-- Sweep the subtree below a node with (already marked) scalar data
`d` and children `cs`. -/
def sweepVisit (thr now : Int) (kv : KV) (ckey : CKey) (d : CSVData)
    (cs : List (String × CacheStoreValue)) : SweepOut :=
  sweepWrap now d cs (sweepChildren thr now kv ckey cs)

/-- Sort the recorded times in descending order (`sort.Slice` with
`lruTimes[i] > lruTimes[j]`, cache.go line 441). -/
def sortTimesDesc (l : List Int) : List Int :=
  l.insertionSort (fun a b => a ≥ b)

/-- The new `lruTresholdTime` after a walk (cache.go lines 441-446):
the `lruSize`-th largest recorded time when the tree holds more values
than `lruSize`, the smallest recorded time otherwise.  The Go code
indexes the sorted slice directly and would panic on an out-of-range
index (`lruSize = 0` with a non-empty list); the `getD` default is
never reached for the in-range indices the claims speak about. -/
def computeLruThreshold (lruSize : Nat) (times : List Int) : Int :=
  let sorted := sortTimesDesc times
  if lruSize < times.length then sorted.getD (lruSize - 1) 0
  else sorted.getD (sorted.length - 1) 0

/-- Result of one full pass of the lazy writer over the whole tree. -/
structure SweepPassResult where
  root : CacheStoreValue
  kv : KV
  lruTimes : List Int
  lruTresholdTime : Int

/-- One full pass of `kvLazyWriter` (one iteration of the outer loop,
cache.go lines 354-459): walk the tree from the root with the current
threshold `thr`, then recompute `lruTresholdTime` from the recorded
times.  The root has no parent, so its own `removeMe` request is
ignored (cache.go line 168 checks `csv.parent != nil`). -/
def kvLazyWriterPass (lruSize : Nat) (thr now : Int) (root : CacheStoreValue) (kv : KV) :
    SweepPassResult :=
  let r := sweepVisit thr now kv [] root.data root.children
  ⟨r.tree, r.kv, r.lruTimes, computeLruThreshold lruSize r.lruTimes⟩

/-- NATS subject matching for the patterns the cache uses: `*` matches
exactly one token, a final `>` matches one or more tokens. -/
def natsMatch : List String → List String → Bool
  | [], [] => true
  | [">"], _ :: _ => true
  | p :: ps, t :: ts => (p = "*" || p = t) && natsMatch ps ts
  | _, _ => false

/-- The per-entry-filter enumeration of the KV: every entry matching
the watch pattern whose value is at least 9 bytes, each malformed
entry dropped individually.  This is what the spec's words describe
for the pattern enumeration (stream drained to the sentinel, malformed
entries dropped one by one); the Go loop of `appendKeysFromKV`
instead BREAKS at the first short entry — see `appendKeysFromKV`
below for the faithful model.  For a literal (single-key) watch
subject the stream holds at most one non-sentinel entry, so break and
filter coincide and this is the exact model of the literal branch
(`getKeysLiteralBranch`). -/
def kvPatternKeys (kv : KV) (pat : List String) : Finset CKey :=
  ((kv.filter (fun e => natsMatch pat e.1 && 9 ≤ e.2.length)).map (fun e => e.1)).toFinset

/-- `appendKeysFromKV` (cache.go lines 703-719), faithful to the loop:
the watch delivers the backlog entries matching the pattern in stream
order (modelled as the KV list's order), then the nil end-of-backlog
sentinel; the loop body is `if entry != nil && len(entry.Value()) >= 9
then add else break`, so the first nil or sub-9-byte entry aborts the
whole enumeration and the collected keys are those of the longest
all-well-formed prefix of the matching entries. -/
def appendKeysFromKV (kv : KV) (pat : List String) : Finset CKey :=
  (((kv.filter (fun e => natsMatch pat e.1)).takeWhile
    (fun e => 9 ≤ e.2.length)).map (fun e => e.1)).toFinset

mutual
/-- The DFS of the `>` branch of `GetKeysByPattern`
(cache.go lines 754-795): the keys of every strict descendant with
`valueExists`, and whether any node of the subtree (the starting node
included) has a positive `storeConsistencyWithKVLossTime`. -/
def descendantKeys (base : CKey) : CacheStoreValue → List CKey × Bool
  | .node d cs =>
    let r := descendantKeysList base cs
    (r.1, decide (0 < d.storeConsistencyWithKVLossTime) || r.2)

/-- `descendantKeys` over a children map. -/
def descendantKeysList (base : CKey) : List (String × CacheStoreValue) → List CKey × Bool
  | [] => ([], false)
  | (k, c) :: rest =>
    let r1 := descendantKeys (base ++ [k]) c
    let r2 := descendantKeysList base rest
    ((if c.data.valueExists then [base ++ [k]] else []) ++ r1.1 ++ r2.1, r1.2 || r2.2)
end

mutual
/-- Clear every positive loss time stamp in a subtree: the sequential
effect of the per-node compare-and-swap loop of cache.go lines
804-810 (each recorded stamp is unchanged when the CAS runs). -/
def clearLossSubtree : CacheStoreValue → CacheStoreValue
  | .node d cs =>
    .node (if 0 < d.storeConsistencyWithKVLossTime then
      { d with storeConsistencyWithKVLossTime := 0 } else d) (clearLossList cs)

/-- `clearLossSubtree` over a children map. -/
def clearLossList : List (String × CacheStoreValue) → List (String × CacheStoreValue)
  | [] => []
  | (k, c) :: rest => (k, clearLossSubtree c) :: clearLossList rest
end

/-- The branch of `GetKeysByPattern` taken when no node sits at the
pattern's parent level (cache.go lines 829-838): consult the KV only
when the deepest existing ancestor has lost consistency. -/
def getKeysFallback (root : CacheStoreValue) (kv : KV) (toks : List String) :
    Finset CKey × CacheStoreValue :=
  let anc := lastExistingNode root toks
  if 0 < anc.data.storeConsistencyWithKVLossTime then (appendKeysFromKV kv toks, root)
  else ({}, root)

/-- The `*` branch of `GetKeysByPattern` (cache.go lines 723-753),
reached with the parent node `(pd, pcs)` found at path `ptoks`:
enumerate the children with `valueExists`; when the parent's loss
stamp (read once, line 725) is positive, union a KV enumeration and,
when that added nothing and every child subtree is consistent,
CAS-clear the parent's stamp (clears only when still equal to the
stamp read before). -/
def getKeysStarBranch (root : CacheStoreValue) (kv : KV) (toks ptoks : List String)
    (pd : CSVData) (pcs : List (String × CacheStoreValue)) :
    Finset CKey × CacheStoreValue :=
  let consistencyWithKVLossTime := pd.storeConsistencyWithKVLossTime
  let childrenConsistent :=
    pcs.all (fun e => !(decide (0 < e.2.data.storeConsistencyWithKVLossTime)))
  let localKeys : Finset CKey :=
    ((pcs.filter (fun e => e.2.data.valueExists)).map (fun e => ptoks ++ [e.1])).toFinset
  if 0 < consistencyWithKVLossTime then
    let keys := localKeys ∪ appendKeysFromKV kv toks
    if keys.card = localKeys.card ∧ childrenConsistent = true then
      (keys, updateNodeAt (fun d =>
        if d.storeConsistencyWithKVLossTime = consistencyWithKVLossTime then
          { d with storeConsistencyWithKVLossTime := 0 }
        else d) root ptoks)
    else (keys, root)
  else (localKeys, root)

/-- The `>` branch of `GetKeysByPattern` (cache.go lines 754-812):
enumerate the whole subtree; union the KV when any subtree node lost
consistency; clear all recorded stamps when the union added nothing. -/
def getKeysGtBranch (root : CacheStoreValue) (kv : KV) (toks ptoks : List String)
    (pd : CSVData) (pcs : List (String × CacheStoreValue)) :
    Finset CKey × CacheStoreValue :=
  let r := descendantKeys ptoks (.node pd pcs)
  let localKeys := r.1.toFinset
  if r.2 then
    let keys := localKeys ∪ appendKeysFromKV kv toks
    if keys.card = localKeys.card then (keys, updateSubtreeAt clearLossSubtree root ptoks)
    else (keys, root)
  else (localKeys, root)

/-- The literal branch of `GetKeysByPattern` (cache.go lines 813-828):
probe the exact node and emit the pattern when present; consult the KV
when the parent's loss stamp is positive; never clear the stamp. -/
def getKeysLiteralBranch (root : CacheStoreValue) (kv : KV) (toks : List String)
    (ltok : String) (pd : CSVData) (pcs : List (String × CacheStoreValue)) :
    Finset CKey × CacheStoreValue :=
  let consistencyWithKVLossTime := pd.storeConsistencyWithKVLossTime
  let localKeys : Finset CKey := if (loadChild pcs ltok).isSome then {toks} else {}
  if 0 < consistencyWithKVLossTime then (localKeys ∪ kvPatternKeys kv toks, root)
  else (localKeys, root)

/-- `CacheStore.GetKeysByPattern` (cache.go lines 698-847), returning
the deduplicated key set and the tree after the call.  The `*` branch
(lines 723-753) enumerates the parent's children with `valueExists`,
unions a KV enumeration when the parent's loss stamp is positive, and
clears that stamp by CAS when the union added nothing and every child
subtree is consistent; the `>` branch (lines 754-812) does the same
over the whole subtree; a literal last token (lines 813-828) probes the
exact node, consults the KV when the loss stamp is positive, and never
clears anything. -/
def GetKeysByPattern (root : CacheStoreValue) (kv : KV) (toks : List String) :
    Finset CKey × CacheStoreValue :=
  let ltok := lastTok toks
  let ptoks := dropLastTok toks
  if ltok = "" then getKeysFallback root kv toks
  else
    match lookupNode root ptoks with
    | none => getKeysFallback root kv toks
    | some (.node pd pcs) =>
      if ltok = "*" then getKeysStarBranch root kv toks ptoks pd pcs
      else if ltok = ">" then getKeysGtBranch root kv toks ptoks pd pcs
      else getKeysLiteralBranch root kv toks ltok pd pcs

theorem loadChild_storeChild_self (cs : List (String × CacheStoreValue)) (k : String)
    (t : CacheStoreValue) : loadChild (storeChild cs k t) k = some t := by
  induction cs with
  | nil => simp [storeChild, loadChild]
  | cons hd rest ih =>
    obtain ⟨k0, c0⟩ := hd
    by_cases h : k0 = k
    · simp [storeChild, h, loadChild]
    · simp [storeChild, h, loadChild, ih]

theorem lastTok_append_single : ∀ (l : List String) (x : String), lastTok (l ++ [x]) = x
  | [], _ => rfl
  | [_], _ => rfl
  | _ :: b :: rest, x => by
    have := lastTok_append_single (b :: rest) x
    simpa [lastTok] using this

theorem dropLastTok_append_single : ∀ (l : List String) (x : String),
    dropLastTok (l ++ [x]) = l
  | [], _ => rfl
  | [_], _ => rfl
  | a :: b :: rest, x => by
    have := dropLastTok_append_single (b :: rest) x
    simpa [dropLastTok] using this

theorem findNodeGo_eq_lookupNode : ∀ (t : CacheStoreValue) (toks : List String),
    toks ≠ [] → lastTok toks ≠ "" → findNodeGo t toks = lookupNode t toks
  | _, [], h, _ => absurd rfl h
  | .node d cs, [a], _, ha => by
    have ha2 : lastTok [a] = a := rfl
    cases hc : loadChild cs a with
    | none => simp [findNodeGo, lastTok, dropLastTok, lookupNode, ha2 ▸ ha, hc,
        CacheStoreValue.children]
    | some c => simp [findNodeGo, lastTok, dropLastTok, lookupNode, ha2 ▸ ha, hc,
        CacheStoreValue.children]
  | .node d cs, a :: b :: rest, _, ha => by
    have hlt : lastTok (a :: b :: rest) = lastTok (b :: rest) := rfl
    cases hc : loadChild cs a with
    | none => simp [findNodeGo, lastTok, dropLastTok, lookupNode, hlt ▸ ha, hc]
    | some c =>
      have ihc := findNodeGo_eq_lookupNode c (b :: rest) (by simp) (hlt ▸ ha)
      rw [findNodeGo, if_neg (hlt ▸ ha)] at ihc
      simp only [findNodeGo, lastTok, dropLastTok, lookupNode, hc]
      simp [hlt ▸ ha, ihc, hc]

theorem findNode_after_setValueGo (now : Int) (v : Bytes) (u : Bool) (t : Int) :
    ∀ (root : CacheStoreValue) (toks : List String), toks ≠ [] → lastTok toks ≠ "" →
    ∃ n : CacheStoreValue, lookupNode (setValueGo now v u t root toks) toks = some n ∧
      n.data.value = some v ∧ n.data.valueExists = true ∧ n.data.valueUpdateTime = t ∧
      n.data.syncNeeded = u ∧ n.data.syncedWithKV = !u ∧ n.data.purgeState = 0
  | _, [], h, _ => absurd rfl h
  | .node d cs, [a], _, ha => by
    have ha2 : a ≠ "" := ha
    cases hc : loadChild cs a with
    | none =>
      refine ⟨.node (newCSVData v u t) [], ?_, by simp [newCSVData, CacheStoreValue.data]⟩
      simp [setValueGo, ha2, hc, lookupNode, loadChild_storeChild_self]
    | some c =>
      obtain ⟨cd, ccs⟩ := c
      refine ⟨.node (putData cd v u t) ccs, ?_, by simp [putData, CacheStoreValue.data]⟩
      simp [setValueGo, ha2, hc, lookupNode, loadChild_storeChild_self]
  | .node d cs, a :: b :: rest, _, ha => by
    have hlt : lastTok (a :: b :: rest) = lastTok (b :: rest) := rfl
    have hne : (b :: rest : List String) ≠ [] := by simp
    cases hc : loadChild cs a with
    | none =>
      obtain ⟨n, hn, hrest⟩ := findNode_after_setValueGo now v u t
        (.node (routingCSVData now) []) (b :: rest) hne (hlt ▸ ha)
      refine ⟨n, ?_, hrest⟩
      simp [setValueGo, hc, lookupNode, loadChild_storeChild_self, hn]
    | some c =>
      obtain ⟨n, hn, hrest⟩ := findNode_after_setValueGo now v u t c (b :: rest) hne
        (hlt ▸ ha)
      refine ⟨n, ?_, hrest⟩
      simp [setValueGo, hc, lookupNode, loadChild_storeChild_self, hn]

/-- The node at the updated path keeps its children and gets `f`
applied to its data. -/
theorem lookupNode_updateNodeAt (f : CSVData → CSVData) :
    ∀ (t : CacheStoreValue) (toks : List String),
    lookupNode (updateNodeAt f t toks) toks =
      (lookupNode t toks).map (fun n => CacheStoreValue.node (f n.data) n.children)
  | .node d cs, [] => by simp [updateNodeAt, lookupNode, CacheStoreValue.data,
      CacheStoreValue.children]
  | .node d cs, tok :: rest => by
    cases hc : loadChild cs tok with
    | none => simp [updateNodeAt, lookupNode, hc]
    | some c =>
      have ih := lookupNode_updateNodeAt f c rest
      simp [updateNodeAt, lookupNode, hc, loadChild_storeChild_self, ih]

/-- C3. Claimed: a node is physically removed from its parent's
children map only when `valueExists = false`, its children map is
empty, `syncNeeded = false`, `syncedWithKV = true`, it has no
subscribers, and `purgeState = 2`.  The code's removal condition
(cache.go line 165) checks everything EXCEPT `valueExists`: a node
whose value still exists (the LRU-purged case) is removed with its
payload intact, so the claim as stated is false. -/
theorem collectGarbage_removes_with_valueExists :
    (collectGarbage (.node ⟨some [9], true, 2, 0, 5, false, true, []⟩ [])).2 = true ∧
    (CSVData.mk (some [9]) true 2 0 5 false true []).valueExists = true := by
  exact ⟨by decide, rfl⟩

/-- C3 (amended).  A node is removed from its parent's children map
exactly when, after `collectGarbage`'s own purge-advance block, its
`purgeState` is 2, its children map is empty, `syncNeeded = false`,
`syncedWithKV = true` and it has no subscribers; `valueExists` is not
consulted. -/
theorem collectGarbage_removal_condition (d : CSVData)
    (cs : List (String × CacheStoreValue)) :
    (collectGarbage (.node d cs)).2 = true ↔
      ((collectGarbage (.node d cs)).1.data.purgeState = 2 ∧ cs = [] ∧
       (collectGarbage (.node d cs)).1.data.syncNeeded = false ∧
       (collectGarbage (.node d cs)).1.data.syncedWithKV = true ∧
       (collectGarbage (.node d cs)).1.data.notifyUpdates = []) := by
  simp only [collectGarbage, CacheStoreValue.data, decide_eq_true_eq]
  simp [List.isEmpty_iff]

/-- C4. Claimed: in every reachable state, `syncNeeded = true` implies
`syncedWithKV = false`, and the watcher's equal-time-stamp echo sets
`syncedWithKV` and clears `syncNeeded`.  Both parts fail: the echo
handler (cache.go lines 316-321) never touches `syncNeeded`, so after
a local dirty `Put`, the lazy writer's KV `Put`, and the watcher
consuming the echo before the writer re-locks to clear `syncNeeded`,
the node is reachably in a state with `syncNeeded = true` and
`syncedWithKV = true`. -/
theorem echo_leaves_syncNeeded_set :
    NodeReach ⟨watcherEchoConfirm (newCSVData [1] true 5), some 5⟩ ∧
    (watcherEchoConfirm (newCSVData [1] true 5)).syncNeeded = true ∧
    (watcherEchoConfirm (newCSVData [1] true 5)).syncedWithKV = true := by
  refine ⟨?_, by decide, by decide⟩
  have h0 : NodeReach ⟨newCSVData [1] true 5, none⟩ := NodeReach.init [1] true 5
  have h1 : NodeReach ⟨newCSVData [1] true 5, some 5⟩ :=
    NodeReach.step _ _ h0 (NodeStep.writerFlush _ rfl)
  exact NodeReach.step _ _ h1 (NodeStep.echoEqual _ rfl)

/-- C4 (amended).  When the watcher observes the KV echo of a write at
the same time stamp it sets `syncedWithKV := true` and attempts the
purge confirmation, but leaves `syncNeeded`, the value bytes and
`valueExists` unchanged; `syncNeeded` is cleared only by the lazy
writer (or by a `Put`/`Delete` with `updateInKV = false`), so
`syncNeeded = true` with `syncedWithKV = true` is transiently
reachable, and `syncNeeded ⇒ ¬syncedWithKV` is not an invariant. -/
theorem watcherEchoConfirm_spec (d : CSVData) :
    (watcherEchoConfirm d).syncedWithKV = true ∧
    (watcherEchoConfirm d).syncNeeded = d.syncNeeded ∧
    (watcherEchoConfirm d).value = d.value ∧
    (watcherEchoConfirm d).valueExists = d.valueExists := by
  simp only [watcherEchoConfirm, tryPurgeConfirm]
  split <;> simp

/-- C7. Claimed: neither the watcher loop nor `GetValue`'s cache-miss
path ever slices out of bounds.  The watcher is safe (it checks
`len(valueBytes) >= 9` before slicing), but `CacheStore.GetValue`
computes `result = valueBytes[9:]` (cache.go line 526) BEFORE its
length check on line 528: on a cache miss whose KV entry is shorter
than 9 bytes — e.g. the 0-byte "purged" signal the wire format itself
allows — the Go code panics with a slice-bounds error.  This theorem
evaluates the model at that failing input. -/
theorem getValue_panics_on_short_kv_value :
    GetValue 0 (.node rootCSVData []) [(["k"], [])] ["k"] =
      .error .sliceOutOfRange := by
  rfl

theorem tryPurgeConfirm_value (d : CSVData) : (tryPurgeConfirm d).value = d.value := by
  unfold tryPurgeConfirm; split <;> rfl

theorem tryPurgeConfirm_valueExists (d : CSVData) :
    (tryPurgeConfirm d).valueExists = d.valueExists := by
  unfold tryPurgeConfirm; split <;> rfl

/-- C1. Claimed: two local `SetValue`s on the same key with
`t2 < t1` leave `GetValue` returning `v1`, the value with the greatest
accepted time stamp.  False: `CacheStoreValue.Put` (cache.go lines
126-148) overwrites unconditionally, without comparing time stamps, so
the second call wins even with the older stamp: here `Set(k,[1],t=10)`
then `Set(k,[2],t=5)` leaves `Get(k) = [2]` with stored stamp 5. -/
theorem setValue_second_write_wins_despite_older_timestamp :
    GetValue 0 (SetValue (SetValue (.node rootCSVData []) ["k"] [1] true 10 0)
        ["k"] [2] true 5 0) [] ["k"] =
      .ok (some [2], none,
        SetValue (SetValue (.node rootCSVData []) ["k"] [1] true 10 0) ["k"] [2] true 5 0) ∧
    GetValueUpdateTime (SetValue (SetValue (.node rootCSVData []) ["k"] [1] true 10 0)
        ["k"] [2] true 5 0) ["k"] = 5 ∧
    (5 : Int) < 10 ∧ ([2] : Bytes) ≠ [1] :=
  ⟨rfl, rfl, by decide, by decide⟩

/-- C1 (amended).  For local writes the LATER CALL wins regardless of
time stamps: after `SetValue(K,v1,t1)` followed by `SetValue(K,v2,t2)`
(any `t2`, in particular `t2 < t1`), `GetValue(K)` returns `v2` with
no error and the stored `valueUpdateTime` is `t2`.  Time-stamp
last-writer-wins is enforced only against inbound KV entries (see
`storeUpdatesHandler`). -/
theorem setValue_last_call_wins (now1 now2 now3 : Int) (root : CacheStoreValue) (kv : KV)
    (toks : List String) (v1 v2 : Bytes) (u1 u2 : Bool) (t1 t2 : Int)
    (h1 : toks ≠ []) (h2 : lastTok toks ≠ "") (h3 : 0 ≤ t2) :
    GetValue now3 (SetValue (SetValue root toks v1 u1 t1 now1) toks v2 u2 t2 now2) kv toks =
      .ok (some v2, none, SetValue (SetValue root toks v1 u1 t1 now1) toks v2 u2 t2 now2) ∧
    GetValueUpdateTime (SetValue (SetValue root toks v1 u1 t1 now1) toks v2 u2 t2 now2) toks
      = t2 := by
  have ht2 : ¬(t2 < 0) := not_lt.mpr h3
  have hset : SetValue (SetValue root toks v1 u1 t1 now1) toks v2 u2 t2 now2 =
      setValueGo now2 v2 u2 t2 (SetValue root toks v1 u1 t1 now1) toks := by
    rw [SetValue, if_neg ht2]
  obtain ⟨n, hn, hv, hex, htime, _, _, _⟩ :=
    findNode_after_setValueGo now2 v2 u2 t2 (SetValue root toks v1 u1 t1 now1) toks h1 h2
  have hfind : findNodeGo (setValueGo now2 v2 u2 t2 (SetValue root toks v1 u1 t1 now1) toks)
      toks = some n := by
    rw [findNodeGo_eq_lookupNode _ toks h1 h2]; exact hn
  constructor
  · rw [hset]; simp [GetValue, hfind, hex, hv]
  · rw [hset]; simp [GetValueUpdateTime, hfind, htime]

theorem setValue_last_call_wins_witness :
    GetValue 0 (SetValue (SetValue (.node rootCSVData []) ["a", "b"] [3] false 7 0)
        ["a", "b"] [4] false 2 0) [] ["a", "b"] =
      .ok (some [4], none,
        SetValue (SetValue (.node rootCSVData []) ["a", "b"] [3] false 7 0)
          ["a", "b"] [4] false 2 0) ∧
    GetValueUpdateTime (SetValue (SetValue (.node rootCSVData []) ["a", "b"] [3] false 7 0)
        ["a", "b"] [4] false 2 0) ["a", "b"] = 2 :=
  setValue_last_call_wins 0 0 0 (.node rootCSVData []) [] ["a", "b"] [3] [4] false false 7 2
    (by decide) (by decide) (by decide)

/-- C5. Claimed: on a cache miss with a successful KV `Get`, `GetValue`
decodes the framed payload, injects it into the cache with
`updateInKV = false` at `t_kv`, and returns the payload bytes.  False
for a framed delete marker (append flag 0): the code (cache.go lines
522-539) then returns the sliced bytes with a NIL error and performs NO
injection — here a 9-byte flag-0 entry for key `k` yields
`([] , nil error)` while the cache still has no node for `k`. -/
theorem getValue_flag_zero_returns_without_injecting :
    GetValue 0 (.node rootCSVData []) [(["k"], putBeUint64 7 ++ [0])] ["k"] =
      .ok (some [], none, .node rootCSVData []) ∧
    lookupNode (.node rootCSVData []) ["k"] = none :=
  ⟨rfl, rfl⟩

/-- C5 (amended).  `GetValue(K)` behaves as: on a cache hit with
`valueExists` it returns the cached bytes with no error; on a hit
without `valueExists` it returns the "value does not exist" error with
no KV fallback; on a miss it performs a KV `Get` and (a) returns the
KV error on failure, (b) panics (slice out of range) when the value is
shorter than 9 bytes, (c) with append flag 1 injects the payload via
`SetValue(K, bytes[9:], updateInKV=false, t_kv)` and returns it, and
(d) with any other flag returns `bytes[9:]` with a nil error and no
injection. -/
theorem getValue_spec (now : Int) (root : CacheStoreValue) (kv : KV) (toks : List String) :
    (∀ n, findNodeGo root toks = some n → n.data.valueExists = true →
      GetValue now root kv toks = .ok (n.data.value, none, root)) ∧
    (∀ n, findNodeGo root toks = some n → n.data.valueExists = false →
      GetValue now root kv toks = .ok (none, some .valueDoesNotExist, root)) ∧
    (findNodeGo root toks = none → kvGet kv toks = none →
      GetValue now root kv toks = .ok (none, some .kvGetError, root)) ∧
    (∀ bs, findNodeGo root toks = none → kvGet kv toks = some bs → bs.length < 9 →
      GetValue now root kv toks = .error .sliceOutOfRange) ∧
    (∀ bs, findNodeGo root toks = none → kvGet kv toks = some bs → 9 ≤ bs.length →
      bs.getD 8 0 = 1 →
      GetValue now root kv toks =
        .ok (some (bs.drop 9), none,
          SetValue root toks (bs.drop 9) false (kvRecordTime bs) now)) ∧
    (∀ bs, findNodeGo root toks = none → kvGet kv toks = some bs → 9 ≤ bs.length →
      bs.getD 8 0 ≠ 1 →
      GetValue now root kv toks = .ok (some (bs.drop 9), none, root)) := by
  refine ⟨?_, ?_, ?_, ?_, ?_, ?_⟩
  · intro n hn hex; simp [GetValue, hn, hex]
  · intro n hn hex; simp [GetValue, hn, hex]
  · intro hn hkv; simp [GetValue, hn, hkv]
  · intro bs hn hkv hlen; simp [GetValue, hn, hkv, hlen]
  · intro bs hn hkv hlen hflag
    simp only [List.getD, List.get?_eq_getElem?] at hflag
    simp [GetValue, List.getD, List.get?_eq_getElem?, hn, hkv, not_lt.mpr hlen, hflag]
  · intro bs hn hkv hlen hflag
    simp only [List.getD, List.get?_eq_getElem?] at hflag
    simp [GetValue, List.getD, List.get?_eq_getElem?, hn, hkv, not_lt.mpr hlen, hflag]

theorem getValue_spec_witness :
    GetValue 0 (.node rootCSVData [("k", .node (newCSVData [7] false 3) [])]) [] ["k"] =
      .ok (some [7], none, .node rootCSVData [("k", .node (newCSVData [7] false 3) [])]) :=
  (getValue_spec 0 (.node rootCSVData [("k", .node (newCSVData [7] false 3) [])]) [] ["k"]).1
    (.node (newCSVData [7] false 3) []) rfl rfl

/-- C10. For every framed inbound KV entry (at least 9 bytes):
if `t_kv < t_local` the watcher ignores it entirely (tree and KV both
unchanged, cache.go lines 299-323 fall through both branches), and for
every entry with `t_kv ≤ t_local` the key's node keeps its value bytes
and its `valueExists` flag (the equal-stamp echo touches only
`syncedWithKV` and `purgeState`). -/
theorem storeUpdatesHandler_stale_entries (now : Int) (root : CacheStoreValue) (kv : KV)
    (key : CKey) (bs : Bytes) (h9 : 9 ≤ bs.length) :
    (kvRecordTime bs < GetValueUpdateTime root key →
      storeUpdatesHandler now root kv key bs = (root, kv)) ∧
    (kvRecordTime bs ≤ GetValueUpdateTime root key →
      (lookupNode (storeUpdatesHandler now root kv key bs).1 key).map
          (fun n => (n.data.value, n.data.valueExists)) =
        (lookupNode root key).map (fun n => (n.data.value, n.data.valueExists))) := by
  constructor
  · intro hlt
    have h1 : ¬(GetValueUpdateTime root key < kvRecordTime bs) := not_lt.mpr hlt.le
    have h2 : kvRecordTime bs ≠ GetValueUpdateTime root key := ne_of_lt hlt
    simp [storeUpdatesHandler, h9, h1, h2]
  · intro hle
    rcases lt_or_eq_of_le hle with hlt | heq
    · have h1 : ¬(GetValueUpdateTime root key < kvRecordTime bs) := not_lt.mpr hlt.le
      have h2 : kvRecordTime bs ≠ GetValueUpdateTime root key := ne_of_lt hlt
      simp [storeUpdatesHandler, h9, h1, h2]
    · have h1 : ¬(GetValueUpdateTime root key < kvRecordTime bs) := not_lt.mpr heq.le
      cases hup : lookupNode root key with
      | none => simp [storeUpdatesHandler, h9, h1, heq, hup]
      | some n =>
        simp [storeUpdatesHandler, h9, h1, heq, hup, lookupNode_updateNodeAt,
          CacheStoreValue.data, tryPurgeConfirm_value, tryPurgeConfirm_valueExists]

theorem storeUpdatesHandler_stale_entries_witness :
    storeUpdatesHandler 0 (.node rootCSVData [("k", .node (newCSVData [1] false 10) [])])
        [] ["k"] (putBeUint64 5 ++ [1]) =
      (.node rootCSVData [("k", .node (newCSVData [1] false 10) [])], []) :=
  (storeUpdatesHandler_stale_entries 0
    (.node rootCSVData [("k", .node (newCSVData [1] false 10) [])]) [] ["k"]
    (putBeUint64 5 ++ [1]) (by decide)).1 (by decide)

/-- C2. Claimed: a sweeper pass evicts a clean cold node by leaving it
in the tree with `valueExists = false` and its payload cleared.  False:
the pass advances the node's `purgeState` to 2 (cache.go lines
403-410) and then `collectGarbage` (lines 436-438, 165-172) removes
the node from its parent's children map OUTRIGHT, payload intact and
`valueExists` still true — after the pass there is no node at the key
at all.  Here: a clean, synced node at time 5 with threshold 10; after
the pass `lookupNode` finds nothing (so no node with
`valueExists = false` exists), the parent's loss stamp is raised to
`now = 100`, and the KV copy is untouched. -/
theorem sweeper_pass_removes_cold_node :
    (kvLazyWriterPass 1 10 100
        (.node rootCSVData [("k", .node ⟨some [1], true, 0, 0, 5, false, true, []⟩ [])])
        [(["k"], putBeUint64 3 ++ [1, 1])]).root =
      .node ⟨none, false, 0, 100, -1, false, true, []⟩ [] ∧
    (kvLazyWriterPass 1 10 100
        (.node rootCSVData [("k", .node ⟨some [1], true, 0, 0, 5, false, true, []⟩ [])])
        [(["k"], putBeUint64 3 ++ [1, 1])]).kv = [(["k"], putBeUint64 3 ++ [1, 1])] ∧
    lookupNode (kvLazyWriterPass 1 10 100
        (.node rootCSVData [("k", .node ⟨some [1], true, 0, 0, 5, false, true, []⟩ [])])
        [(["k"], putBeUint64 3 ++ [1, 1])]).root ["k"] = none :=
  ⟨rfl, rfl, rfl⟩

/-- C2 (amended).  For a clean (`syncNeeded = false`), synced
(`syncedWithKV = true`) node with `0 < valueUpdateTime ≤ lruThreshold`,
`purgeState = 0` and no subscribers, a sweeper pass evicts it by
advancing `purgeState` to 2 — leaving `valueExists` and the in-memory
payload untouched — and, when it is a childless leaf, physically
removing it from its parent's children map; the parent's
`storeConsistencyWithKVLossTime` is raised to the sweep time, and no
KV delete is issued (the KV is unchanged, so the KV copy survives). -/
theorem sweeper_evicts_cold_node (lruSize : Nat) (thr now : Int) (kv : KV) (k : String)
    (rd d : CSVData)
    (h1 : d.syncNeeded = false) (h2 : d.syncedWithKV = true)
    (h3 : 0 < d.valueUpdateTime) (h4 : d.valueUpdateTime ≤ thr)
    (h5 : d.purgeState = 0) (h6 : d.notifyUpdates = []) :
    (kvLazyWriterPass lruSize thr now (.node rd [(k, .node d [])]) kv).root =
      .node (raiseConsistencyLoss rd now) [] ∧
    (kvLazyWriterPass lruSize thr now (.node rd [(k, .node d [])]) kv).kv = kv ∧
    (sweepMarkData thr kv [k] d).1.valueExists = d.valueExists ∧
    (sweepMarkData thr kv [k] d).1.value = d.value ∧
    (sweepMarkData thr kv [k] d).1.purgeState = 2 := by
  obtain hve | hve := Bool.eq_false_or_eq_true d.valueExists <;>
    simp [kvLazyWriterPass, sweepVisit, sweepSub, sweepChildren, sweepWrap, sweepMarkData,
      collectGarbage, tryPurgeReady, tryPurgeConfirm, CacheStoreValue.data,
      CacheStoreValue.children, h1, h2, h3, h4, h5, h6, hve]

theorem sweeper_evicts_cold_node_witness :
    (kvLazyWriterPass 1 10 100
        (.node rootCSVData [("k", .node ⟨some [2], true, 0, 3, 6, false, true, []⟩ [])])
        []).root =
      .node (raiseConsistencyLoss rootCSVData 100) [] ∧
    (kvLazyWriterPass 1 10 100
        (.node rootCSVData [("k", .node ⟨some [2], true, 0, 3, 6, false, true, []⟩ [])])
        []).kv = [] ∧
    (sweepMarkData 10 [] ["k"] ⟨some [2], true, 0, 3, 6, false, true, []⟩).1.valueExists =
      (CSVData.mk (some [2]) true 0 3 6 false true []).valueExists ∧
    (sweepMarkData 10 [] ["k"] ⟨some [2], true, 0, 3, 6, false, true, []⟩).1.value =
      (CSVData.mk (some [2]) true 0 3 6 false true []).value ∧
    (sweepMarkData 10 [] ["k"] ⟨some [2], true, 0, 3, 6, false, true, []⟩).1.purgeState = 2 :=
  sweeper_evicts_cold_node 1 10 100 [] "k" rootCSVData
    ⟨some [2], true, 0, 3, 6, false, true, []⟩
    (by decide) (by decide) (by decide) (by decide) (by decide) (by decide)

/-- C8. After a full sweeper walk, the new `lruTresholdTime` is
computed from the recorded `valueUpdateTime`s sorted in descending
order: when the tree holds more than `lruSize` recorded values it is
the entry at index `lruSize - 1`, otherwise the last (smallest)
entry.  Stated against any descending-sorted permutation `l` of the
recorded times (such a permutation is unique). -/
theorem lruThreshold_spec (lruSize : Nat) (thr now : Int) (root : CacheStoreValue) (kv : KV)
    (l : List Int) (_hsz : 1 ≤ lruSize)
    (hperm : l.Perm (kvLazyWriterPass lruSize thr now root kv).lruTimes)
    (hsort : l.Sorted (fun a b => a ≥ b)) :
    (kvLazyWriterPass lruSize thr now root kv).lruTresholdTime =
      if lruSize < l.length then l.getD (lruSize - 1) 0
      else l.getD (l.length - 1) 0 := by
  have hanti : IsAntisymm Int (fun a b => a ≥ b) := ⟨fun a b x y => le_antisymm y x⟩
  have hsorted : (sortTimesDesc (kvLazyWriterPass lruSize thr now root kv).lruTimes).Sorted
      (fun a b => a ≥ b) := List.sorted_insertionSort _ _
  have hperm2 : (sortTimesDesc (kvLazyWriterPass lruSize thr now root kv).lruTimes).Perm
      (kvLazyWriterPass lruSize thr now root kv).lruTimes := List.perm_insertionSort _ _
  have heq : l = sortTimesDesc (kvLazyWriterPass lruSize thr now root kv).lruTimes :=
    List.eq_of_perm_of_sorted (hperm.trans hperm2.symm) hsort hsorted
  have hlen : l.length = (kvLazyWriterPass lruSize thr now root kv).lruTimes.length :=
    hperm.length_eq
  show computeLruThreshold lruSize (kvLazyWriterPass lruSize thr now root kv).lruTimes =
    if lruSize < l.length then l.getD (lruSize - 1) 0 else l.getD (l.length - 1) 0
  rw [computeLruThreshold, ← heq, hlen]

theorem lruThreshold_spec_witness :
    (kvLazyWriterPass 2 0 50
        (.node rootCSVData [("a", .node (newCSVData [1] false 3) []),
          ("b", .node (newCSVData [2] false 7) [])]) []).lruTresholdTime = 3 := by
  have h := lruThreshold_spec 2 0 50
    (.node rootCSVData [("a", .node (newCSVData [1] false 3) []),
      ("b", .node (newCSVData [2] false 7) [])]) [] [7, 3, -1]
    (by decide) (by decide) (by decide)
  rw [h]; decide

theorem mem_kvPatternKeys (kv : KV) (pat : List String) (q : CKey) :
    q ∈ kvPatternKeys kv pat ↔
      ∃ bs, (q, bs) ∈ kv ∧ natsMatch pat q = true ∧ 9 ≤ bs.length := by
  simp only [kvPatternKeys, List.mem_toFinset, List.mem_map, List.mem_filter,
    Bool.and_eq_true, decide_eq_true_eq]
  constructor
  · rintro ⟨⟨qk, bs⟩, ⟨hmem, hmatch, hlen⟩, hq⟩
    exact ⟨bs, by simpa [← hq] using hmem, by simpa [← hq] using hmatch, hlen⟩
  · rintro ⟨bs, hmem, hmatch, hlen⟩
    exact ⟨(q, bs), ⟨hmem, hmatch, hlen⟩, rfl⟩

theorem mem_starLocalKeys (pcs : List (String × CacheStoreValue)) (ptoks : CKey) (q : CKey) :
    q ∈ ((pcs.filter (fun e => e.2.data.valueExists)).map
        (fun e => ptoks ++ [e.1])).toFinset ↔
      ∃ k c, (k, c) ∈ pcs ∧ c.data.valueExists = true ∧ q = ptoks ++ [k] := by
  simp only [List.mem_toFinset, List.mem_map, List.mem_filter]
  constructor
  · rintro ⟨⟨k, c⟩, ⟨hmem, hve⟩, hq⟩
    exact ⟨k, c, hmem, hve, hq.symm⟩
  · rintro ⟨k, c, hmem, hve, hq⟩
    exact ⟨(k, c), ⟨hmem, hve⟩, hq.symm⟩

theorem union_card_eq_iff (s t : Finset CKey) : (s ∪ t).card = s.card ↔ t ⊆ s := by
  constructor
  · intro h
    have hs : s = s ∪ t :=
      Finset.eq_of_subset_of_card_le Finset.subset_union_left h.le
    intro x hx
    rw [hs]
    exact Finset.mem_union_right s hx
  · intro h
    rw [Finset.union_eq_left.mpr h]

theorem mem_takeWhile_split {α : Type} (p : α → Bool) :
    ∀ (l : List α) (x : α),
      x ∈ l.takeWhile p ↔
        ∃ l1 l2, l = l1 ++ x :: l2 ∧ (∀ y ∈ l1, p y = true) ∧ p x = true
  | [], x => by
    constructor
    · intro h
      simp [List.takeWhile_nil] at h
    · rintro ⟨l1, l2, heq, -, -⟩
      cases l1 <;> simp at heq
  | a :: l, x => by
    by_cases hpa : p a = true
    · rw [show (a :: l).takeWhile p = a :: l.takeWhile p from by
        simp [List.takeWhile_cons, hpa]]
      constructor
      · intro hx
        rcases List.mem_cons.mp hx with hxa | hxl
        · exact ⟨[], l, by simp [hxa], by simp, by rw [hxa]; exact hpa⟩
        · obtain ⟨l1, l2, heq, hall, hpx⟩ := (mem_takeWhile_split p l x).mp hxl
          refine ⟨a :: l1, l2, by rw [heq]; rfl, ?_, hpx⟩
          intro y hy
          rcases List.mem_cons.mp hy with h1 | h2
          · rwa [h1]
          · exact hall y h2
      · rintro ⟨l1, l2, heq, hall, hpx⟩
        cases l1 with
        | nil =>
          simp at heq
          rw [heq.1]
          exact List.mem_cons_self _ _
        | cons b l1r =>
          simp at heq
          refine List.mem_cons_of_mem a ?_
          exact (mem_takeWhile_split p l x).mpr
            ⟨l1r, l2, heq.2, fun y hy => hall y (List.mem_cons_of_mem b hy), hpx⟩
    · rw [show (a :: l).takeWhile p = [] from by simp [List.takeWhile_cons, hpa]]
      constructor
      · intro h
        exact absurd h (List.not_mem_nil x)
      · rintro ⟨l1, l2, heq, hall, hpx⟩
        cases l1 with
        | nil =>
          simp at heq
          exact absurd (show p a = true by rw [heq.1]; exact hpx) hpa
        | cons b l1r =>
          simp at heq
          exact absurd
            (show p a = true by rw [heq.1]; exact hall b (List.mem_cons_self b l1r)) hpa

/-- A key is collected by the (early-breaking) KV enumeration exactly
when its entry sits in the matching stream with only well-formed
(at least 9 bytes) entries before it, itself included. -/
theorem mem_appendKeysFromKV (kv : KV) (pat : List String) (q : CKey) :
    q ∈ appendKeysFromKV kv pat ↔
      ∃ l1 l2 bs, kv.filter (fun e => natsMatch pat e.1) = l1 ++ (q, bs) :: l2 ∧
        (∀ e ∈ l1, 9 ≤ e.2.length) ∧ 9 ≤ bs.length := by
  simp only [appendKeysFromKV, List.mem_toFinset, List.mem_map]
  constructor
  · rintro ⟨⟨qk, bs⟩, hmem, hq⟩
    obtain ⟨l1, l2, heq, hall, hp⟩ := (mem_takeWhile_split _ _ _).mp hmem
    refine ⟨l1, l2, bs, ?_, ?_, ?_⟩
    · rw [heq, show qk = q from hq]
    · intro e he
      have := hall e he
      simpa using this
    · simpa using hp
  · rintro ⟨l1, l2, bs, heq, hall, hlen⟩
    refine ⟨(q, bs), ?_, rfl⟩
    exact (mem_takeWhile_split _ _ _).mpr
      ⟨l1, l2, heq, fun y hy => by simpa using hall y hy, by simpa using hlen⟩

theorem getKeysByPattern_star_eq (root : CacheStoreValue) (kv : KV) (ptoks : CKey)
    (pd : CSVData) (pcs : List (String × CacheStoreValue))
    (hp : lookupNode root ptoks = some (.node pd pcs)) :
    GetKeysByPattern root kv (ptoks ++ ["*"]) =
      getKeysStarBranch root kv (ptoks ++ ["*"]) ptoks pd pcs := by
  simp [GetKeysByPattern, lastTok_append_single, dropLastTok_append_single, hp]

theorem getKeysByPattern_literal_eq (root : CacheStoreValue) (kv : KV) (ptoks : CKey)
    (ltok : String) (pd : CSVData) (pcs : List (String × CacheStoreValue))
    (h0 : ltok ≠ "") (h1 : ltok ≠ "*") (h2 : ltok ≠ ">")
    (hp : lookupNode root ptoks = some (.node pd pcs)) :
    GetKeysByPattern root kv (ptoks ++ [ltok]) =
      getKeysLiteralBranch root kv (ptoks ++ [ltok]) ltok pd pcs := by
  simp [GetKeysByPattern, lastTok_append_single, dropLastTok_append_single, hp, h0, h1, h2]

/-- C9. Claimed: `GetKeysByPattern` with a literal last token emits the
pattern string iff the exact node is present (plus a KV consultation
when the parent's loss stamp is positive).  The "only if" direction is
false: when the node is absent but the parent's
`storeConsistencyWithKVLossTime` is positive and the KV holds a framed
entry for that very key, `appendKeysFromKV` (cache.go lines 703-719,
823-826) emits the pattern string anyway. -/
theorem getKeys_literal_emits_absent_key :
    (["k"] : CKey) ∈ (GetKeysByPattern (.node ⟨none, false, 0, 5, -1, false, true, []⟩ [])
        [(["k"], putBeUint64 3 ++ [1])] ["k"]).1 ∧
    lookupNode (.node ⟨none, false, 0, 5, -1, false, true, []⟩ []) ["k"] = none :=
  ⟨by decide, rfl⟩

/-- C9 (amended).  For a literal last token, the local probe emits the
pattern string iff the exact node is present; when the parent's
`storeConsistencyWithKVLossTime` is positive the result is additionally
unioned with the KV enumeration of the literal pattern (which can emit
the pattern string even when no node is present); and the call leaves
the tree — in particular the parent's loss stamp — unchanged, never
clearing the marker in this branch. -/
theorem getKeysByPattern_literal (root : CacheStoreValue) (kv : KV) (ptoks : CKey)
    (ltok : String) (pd : CSVData) (pcs : List (String × CacheStoreValue))
    (h0 : ltok ≠ "") (h1 : ltok ≠ "*") (h2 : ltok ≠ ">")
    (hp : lookupNode root ptoks = some (.node pd pcs)) :
    (GetKeysByPattern root kv (ptoks ++ [ltok])).2 = root ∧
    ∀ q, q ∈ (GetKeysByPattern root kv (ptoks ++ [ltok])).1 ↔
      (((loadChild pcs ltok).isSome = true ∧ q = ptoks ++ [ltok]) ∨
       (0 < pd.storeConsistencyWithKVLossTime ∧
        ∃ bs, (q, bs) ∈ kv ∧ natsMatch (ptoks ++ [ltok]) q = true ∧ 9 ≤ bs.length)) := by
  rw [getKeysByPattern_literal_eq root kv ptoks ltok pd pcs h0 h1 h2 hp]
  constructor
  · by_cases ho : 0 < pd.storeConsistencyWithKVLossTime <;>
      simp [getKeysLiteralBranch, ho]
  · intro q
    by_cases ho : 0 < pd.storeConsistencyWithKVLossTime <;>
      cases hc : (loadChild pcs ltok).isSome <;>
        simp [getKeysLiteralBranch, ho, hc, Finset.mem_union, mem_kvPatternKeys]

theorem getKeysByPattern_literal_witness :
    (GetKeysByPattern (.node ⟨none, false, 0, 7, -1, false, true, []⟩
        [("a", .node (newCSVData [1] false 2) [])]) [] ["a"]).2 =
      .node ⟨none, false, 0, 7, -1, false, true, []⟩
        [("a", .node (newCSVData [1] false 2) [])] ∧
    ((["a"] : CKey) ∈ (GetKeysByPattern (.node ⟨none, false, 0, 7, -1, false, true, []⟩
        [("a", .node (newCSVData [1] false 2) [])]) [] ["a"]).1 ↔
      (((loadChild [("a", CacheStoreValue.node (newCSVData [1] false 2) [])] "a").isSome
            = true ∧ (["a"] : CKey) = [] ++ ["a"]) ∨
       (0 < (CSVData.mk none false 0 7 (-1) false true []).storeConsistencyWithKVLossTime ∧
        ∃ bs, ((["a"] : CKey), bs) ∈ ([] : KV) ∧ natsMatch ([] ++ ["a"]) ["a"] = true ∧
          9 ≤ bs.length))) := by
  have h := getKeysByPattern_literal (.node ⟨none, false, 0, 7, -1, false, true, []⟩
    [("a", .node (newCSVData [1] false 2) [])]) [] [] "a"
    ⟨none, false, 0, 7, -1, false, true, []⟩
    [("a", .node (newCSVData [1] false 2) [])]
    (by decide) (by decide) (by decide) rfl
  exact ⟨h.1, h.2 ["a"]⟩

/-- C6. Claimed: the `*` pattern unions the local `valueExists`
children with a fresh KV enumeration of the pattern (per the spec's
words: each matching well-formed entry, malformed ones dropped
individually, the stream drained to the sentinel — `kvPatternKeys`),
clearing the parent's marker only when that union added no keys.
False: `appendKeysFromKV`'s loop (cache.go lines 708-712) BREAKS at
the first sub-9-byte entry, dropping every later key.  Here the
matching stream holds a 0-byte tombstone before a live framed entry
for key `b`: the claimed enumeration contains `b`, so the claim
demands `b` in the result and the marker kept at 5; the code returns
the EMPTY key set and CAS-clears the marker to 0. -/
theorem getKeys_star_break_drops_keys :
    (GetKeysByPattern (.node ⟨none, false, 0, 5, -1, false, true, []⟩ [])
        [(["a"], []), (["b"], putBeUint64 2 ++ [1])] ["*"]).1 = ∅ ∧
    kvPatternKeys [(["a"], []), (["b"], putBeUint64 2 ++ [1])] ["*"] = {["b"]} ∧
    (lookupNode (GetKeysByPattern (.node ⟨none, false, 0, 5, -1, false, true, []⟩ [])
        [(["a"], []), (["b"], putBeUint64 2 ++ [1])] ["*"]).2 []).map
      (fun n => n.data.storeConsistencyWithKVLossTime) = some 0 :=
  ⟨by decide, by decide, by decide⟩

/-- C6 (amended).  `GetKeysByPattern` with last token `*` returns,
with set semantics, exactly the parent's children with
`valueExists = true`, unioned — when the parent's
`storeConsistencyWithKVLossTime` is positive — with the keys of the
LONGEST ALL-WELL-FORMED PREFIX of the pattern's KV watch stream: the
enumeration breaks at the first entry shorter than 9 bytes, dropping
all later keys (a key is emitted iff its entry and every matching
entry before it carry at least 9 bytes); and the parent's loss stamp
is CAS-cleared (against the stamp read at the start, unchanged in
this sequential model) exactly when that possibly-truncated
enumeration added no keys and every child subtree reports
`storeConsistencyWithKVLossTime = 0` — so an early malformed entry
can both hide live KV keys from the result and clear the marker
spuriously. -/
theorem getKeysByPattern_star (root : CacheStoreValue) (kv : KV) (ptoks : CKey)
    (pd : CSVData) (pcs : List (String × CacheStoreValue))
    (hp : lookupNode root ptoks = some (.node pd pcs))
    (hnn : ∀ e ∈ pcs, 0 ≤ (e.2 : CacheStoreValue).data.storeConsistencyWithKVLossTime) :
    (∀ q, q ∈ (GetKeysByPattern root kv (ptoks ++ ["*"])).1 ↔
      ((∃ k c, (k, c) ∈ pcs ∧ c.data.valueExists = true ∧ q = ptoks ++ [k]) ∨
       (0 < pd.storeConsistencyWithKVLossTime ∧
        ∃ l1 l2 bs,
          kv.filter (fun e => natsMatch (ptoks ++ ["*"]) e.1) = l1 ++ (q, bs) :: l2 ∧
          (∀ e ∈ l1, 9 ≤ e.2.length) ∧ 9 ≤ bs.length))) ∧
    (lookupNode (GetKeysByPattern root kv (ptoks ++ ["*"])).2 ptoks).map
        (fun n => n.data.storeConsistencyWithKVLossTime) =
      some (if 0 < pd.storeConsistencyWithKVLossTime ∧
          appendKeysFromKV kv (ptoks ++ ["*"]) ⊆
            ((pcs.filter (fun e => e.2.data.valueExists)).map
              (fun e => ptoks ++ [e.1])).toFinset ∧
          (∀ e ∈ pcs, (e.2 : CacheStoreValue).data.storeConsistencyWithKVLossTime = 0)
        then 0 else pd.storeConsistencyWithKVLossTime) := by
  rw [getKeysByPattern_star_eq root kv ptoks pd pcs hp]
  have hcc : (pcs.all
      (fun e => !(decide (0 < e.2.data.storeConsistencyWithKVLossTime))) = true) ↔
      (∀ e ∈ pcs, (e.2 : CacheStoreValue).data.storeConsistencyWithKVLossTime = 0) := by
    simp only [List.all_eq_true, Bool.not_eq_true', decide_eq_false_iff_not, not_lt]
    constructor
    · intro h e he; exact le_antisymm (h e he) (hnn e he)
    · intro h e he; exact (h e he).le
  have hcard := union_card_eq_iff
    (((pcs.filter (fun e => e.2.data.valueExists)).map
      (fun e => ptoks ++ [e.1])).toFinset) (appendKeysFromKV kv (ptoks ++ ["*"]))
  by_cases ho : 0 < pd.storeConsistencyWithKVLossTime
  · by_cases hclear : ((((pcs.filter (fun e => e.2.data.valueExists)).map
          (fun e => ptoks ++ [e.1])).toFinset ∪ appendKeysFromKV kv (ptoks ++ ["*"])).card =
        (((pcs.filter (fun e => e.2.data.valueExists)).map
          (fun e => ptoks ++ [e.1])).toFinset).card) ∧
        ((pcs.all (fun e => !(decide (0 < e.2.data.storeConsistencyWithKVLossTime)))) = true)
    · have hcond : 0 < pd.storeConsistencyWithKVLossTime ∧
          appendKeysFromKV kv (ptoks ++ ["*"]) ⊆
            ((pcs.filter (fun e => e.2.data.valueExists)).map
              (fun e => ptoks ++ [e.1])).toFinset ∧
          (∀ e ∈ pcs, (e.2 : CacheStoreValue).data.storeConsistencyWithKVLossTime = 0) :=
        ⟨ho, hcard.mp hclear.1, hcc.mp hclear.2⟩
      constructor
      · intro q
        simp only [getKeysStarBranch]
        rw [if_pos ho, if_pos hclear]
        dsimp only
        rw [Finset.mem_union, mem_starLocalKeys, mem_appendKeysFromKV]
        simp [ho]
      · simp only [getKeysStarBranch]
        rw [if_pos ho, if_pos hclear]
        dsimp only
        rw [if_pos hcond, lookupNode_updateNodeAt, hp]
        simp [CacheStoreValue.data]
    · have hncond : ¬(0 < pd.storeConsistencyWithKVLossTime ∧
          appendKeysFromKV kv (ptoks ++ ["*"]) ⊆
            ((pcs.filter (fun e => e.2.data.valueExists)).map
              (fun e => ptoks ++ [e.1])).toFinset ∧
          (∀ e ∈ pcs, (e.2 : CacheStoreValue).data.storeConsistencyWithKVLossTime = 0)) :=
        fun hcond => hclear ⟨hcard.mpr hcond.2.1, hcc.mpr hcond.2.2⟩
      constructor
      · intro q
        simp only [getKeysStarBranch]
        rw [if_pos ho, if_neg hclear]
        dsimp only
        rw [Finset.mem_union, mem_starLocalKeys, mem_appendKeysFromKV]
        simp [ho]
      · simp only [getKeysStarBranch]
        rw [if_pos ho, if_neg hclear]
        dsimp only
        rw [if_neg hncond, hp]
        simp [CacheStoreValue.data]
  · have hncond : ¬(0 < pd.storeConsistencyWithKVLossTime ∧
        appendKeysFromKV kv (ptoks ++ ["*"]) ⊆
          ((pcs.filter (fun e => e.2.data.valueExists)).map
            (fun e => ptoks ++ [e.1])).toFinset ∧
        (∀ e ∈ pcs, (e.2 : CacheStoreValue).data.storeConsistencyWithKVLossTime = 0)) :=
      fun hcond => ho hcond.1
    constructor
    · intro q
      simp only [getKeysStarBranch]
      rw [if_neg ho]
      dsimp only
      rw [mem_starLocalKeys]
      simp [ho]
    · simp only [getKeysStarBranch]
      rw [if_neg ho]
      dsimp only
      rw [if_neg hncond, hp]
      simp [CacheStoreValue.data]

theorem getKeysByPattern_star_witness :
    ((["b"] : CKey) ∈ (GetKeysByPattern
        (.node ⟨none, false, 0, 5, -1, false, true, []⟩
          [("b", .node (newCSVData [1] false 3) [])])
        [(["b"], putBeUint64 2 ++ [1])] ["*"]).1) ∧
    (lookupNode (GetKeysByPattern
        (.node ⟨none, false, 0, 5, -1, false, true, []⟩
          [("b", .node (newCSVData [1] false 3) [])])
        [(["b"], putBeUint64 2 ++ [1])] ["*"]).2 []).map
      (fun n => n.data.storeConsistencyWithKVLossTime) = some 0 := by
  have h := getKeysByPattern_star
    (.node ⟨none, false, 0, 5, -1, false, true, []⟩
      [("b", .node (newCSVData [1] false 3) [])])
    [(["b"], putBeUint64 2 ++ [1])] []
    ⟨none, false, 0, 5, -1, false, true, []⟩
    [("b", .node (newCSVData [1] false 3) [])]
    rfl (by decide)
  constructor
  · exact (h.1 ["b"]).mpr (Or.inl ⟨"b", .node (newCSVData [1] false 3) [], by simp,
      rfl, rfl⟩)
  · have h2 := h.2
    simp only [List.nil_append] at h2
    rw [h2]
    decide


end FoliageCache
